import Mathlib

/-!
Verification of the column-configuration reconciliation engine of
`src/pages/data-sources/[dataSourceId]/tables/[tableName]/edit.tsx`.

The program is TypeScript/React operating on dynamic JavaScript values, so the
embedding models JavaScript data as an inductive type `JVal` (booleans,
strings, numbers, null, undefined, objects as ordered key/value field lists,
arrays).  The functions below are direct translations of:

* `setColumnOption` (lines 439-472): the single mutation entry point;
* the two constraint `useEffect`s of `ColumnEditor` (lines 101-115);
* `diff` = `difference(initialColumns, columns)` (line 404-406) from the
  `deep-object-diff` package, whose `diff` function is embedded faithfully
  (reference equality `===` is modelled as structural equality; the two
  coincide observationally for the acyclic values handled here, because the
  recursive diff of structurally equal objects is the empty object, which is
  dropped by the caller in exactly the same way);
* `changes` (lines 408-433): the patch builder;
* the React effect loop: state committed by `setColumns`/`setColumn`, then
  each `useEffect` whose dependency changed since the previous render runs,
  using the closures of the current render.  Within one effect invocation all
  `setColumnOption` calls see the same (stale) `columns`/`column`, and React
  batches the queued non-functional state updates so the last call wins.

Known, deliberate modelling simplifications (none affects the claims):
property access on `null` throws a TypeError in JavaScript and is modelled as
returning `undefined`; the `length` property of arrays and strings is not
modelled; object keys obtained from non-string column names are modelled
coarsely in `jKeyString` (the data model fixes `name` to be a string).
-/

/-- A JavaScript value: the dynamic data the page manipulates.  Objects are
ordered association lists of own enumerable properties (JavaScript object key
order); a key explicitly present with value `jUndefined` is distinct from an
absent key, matching `hasOwnProperty`. -/
inductive JVal where
  | jBool (b : Bool)
  | jStr (s : String)
  | jNum (n : Int)
  | jNull
  | jUndefined
  | jObj (fields : List (String × JVal))
  | jArr (elems : List JVal)
  deriving Repr

mutual

/-- Structural equality of JavaScript values (used to model `===` on
primitives, and as the sound shortcut for reference equality on objects). -/
def JVal.beq : JVal → JVal → Bool
  | .jBool a, .jBool b => a == b
  | .jStr a, .jStr b => a == b
  | .jNum a, .jNum b => a == b
  | .jNull, .jNull => true
  | .jUndefined, .jUndefined => true
  | .jObj fs, .jObj gs => JVal.beqFields fs gs
  | .jArr es, .jArr ds => JVal.beqElems es ds
  | _, _ => false

def JVal.beqFields : List (String × JVal) → List (String × JVal) → Bool
  | [], [] => true
  | (k, v) :: rest, (k2, v2) :: rest2 =>
    k == k2 && JVal.beq v v2 && JVal.beqFields rest rest2
  | _, _ => false

def JVal.beqElems : List JVal → List JVal → Bool
  | [], [] => true
  | v :: rest, v2 :: rest2 => JVal.beq v v2 && JVal.beqElems rest rest2
  | _, _ => false

end

mutual

theorem JVal.beq_iff : ∀ a b : JVal, JVal.beq a b = true ↔ a = b
  | .jBool _, .jBool _ => by simp [JVal.beq]
  | .jStr _, .jStr _ => by simp [JVal.beq]
  | .jNum _, .jNum _ => by simp [JVal.beq]
  | .jNull, .jNull => by simp [JVal.beq]
  | .jUndefined, .jUndefined => by simp [JVal.beq]
  | .jObj fs, .jObj gs => by
    simp only [JVal.beq, JVal.beqFields_iff fs gs, JVal.jObj.injEq]
  | .jArr es, .jArr ds => by
    simp only [JVal.beq, JVal.beqElems_iff es ds, JVal.jArr.injEq]
  | .jBool _, .jStr _ => by simp [JVal.beq]
  | .jBool _, .jNum _ => by simp [JVal.beq]
  | .jBool _, .jNull => by simp [JVal.beq]
  | .jBool _, .jUndefined => by simp [JVal.beq]
  | .jBool _, .jObj _ => by simp [JVal.beq]
  | .jBool _, .jArr _ => by simp [JVal.beq]
  | .jStr _, .jBool _ => by simp [JVal.beq]
  | .jStr _, .jNum _ => by simp [JVal.beq]
  | .jStr _, .jNull => by simp [JVal.beq]
  | .jStr _, .jUndefined => by simp [JVal.beq]
  | .jStr _, .jObj _ => by simp [JVal.beq]
  | .jStr _, .jArr _ => by simp [JVal.beq]
  | .jNum _, .jBool _ => by simp [JVal.beq]
  | .jNum _, .jStr _ => by simp [JVal.beq]
  | .jNum _, .jNull => by simp [JVal.beq]
  | .jNum _, .jUndefined => by simp [JVal.beq]
  | .jNum _, .jObj _ => by simp [JVal.beq]
  | .jNum _, .jArr _ => by simp [JVal.beq]
  | .jNull, .jBool _ => by simp [JVal.beq]
  | .jNull, .jStr _ => by simp [JVal.beq]
  | .jNull, .jNum _ => by simp [JVal.beq]
  | .jNull, .jUndefined => by simp [JVal.beq]
  | .jNull, .jObj _ => by simp [JVal.beq]
  | .jNull, .jArr _ => by simp [JVal.beq]
  | .jUndefined, .jBool _ => by simp [JVal.beq]
  | .jUndefined, .jStr _ => by simp [JVal.beq]
  | .jUndefined, .jNum _ => by simp [JVal.beq]
  | .jUndefined, .jNull => by simp [JVal.beq]
  | .jUndefined, .jObj _ => by simp [JVal.beq]
  | .jUndefined, .jArr _ => by simp [JVal.beq]
  | .jObj _, .jBool _ => by simp [JVal.beq]
  | .jObj _, .jStr _ => by simp [JVal.beq]
  | .jObj _, .jNum _ => by simp [JVal.beq]
  | .jObj _, .jNull => by simp [JVal.beq]
  | .jObj _, .jUndefined => by simp [JVal.beq]
  | .jObj _, .jArr _ => by simp [JVal.beq]
  | .jArr _, .jBool _ => by simp [JVal.beq]
  | .jArr _, .jStr _ => by simp [JVal.beq]
  | .jArr _, .jNum _ => by simp [JVal.beq]
  | .jArr _, .jNull => by simp [JVal.beq]
  | .jArr _, .jUndefined => by simp [JVal.beq]
  | .jArr _, .jObj _ => by simp [JVal.beq]

theorem JVal.beqFields_iff :
    ∀ fs gs : List (String × JVal), JVal.beqFields fs gs = true ↔ fs = gs
  | [], [] => by simp [JVal.beqFields]
  | (k, v) :: rest, (k2, v2) :: rest2 => by
    simp only [JVal.beqFields, Bool.and_eq_true, beq_iff_eq, JVal.beq_iff v v2,
      JVal.beqFields_iff rest rest2, List.cons.injEq, Prod.mk.injEq, and_assoc]
  | [], _ :: _ => by simp [JVal.beqFields]
  | _ :: _, [] => by simp [JVal.beqFields]

theorem JVal.beqElems_iff :
    ∀ es ds : List JVal, JVal.beqElems es ds = true ↔ es = ds
  | [], [] => by simp [JVal.beqElems]
  | v :: rest, v2 :: rest2 => by
    simp only [JVal.beqElems, Bool.and_eq_true, JVal.beq_iff v v2,
      JVal.beqElems_iff rest rest2, List.cons.injEq]
  | [], _ :: _ => by simp [JVal.beqElems]
  | _ :: _, [] => by simp [JVal.beqElems]

end

instance : DecidableEq JVal := fun a b => decidable_of_iff _ (JVal.beq_iff a b)

/-! ### Field-list primitives: JavaScript object semantics -/

/-- First-match association-list lookup: `o[k]` presence and value for an
object represented by its ordered field list. -/
def lookupField : List (String × JVal) → String → Option JVal
  | [], _ => none
  | (k2, v) :: rest, k => if k2 = k then some v else lookupField rest k

/-- `{...o, [k]: v}` on a field list: an existing key keeps its position and
gets the new value, a new key is appended (JavaScript object key order). -/
def setField : List (String × JVal) → String → JVal → List (String × JVal)
  | [], k, v => [(k, v)]
  | (k2, v2) :: rest, k, v =>
    if k2 = k then (k, v) :: rest else (k2, v2) :: setField rest k v

/-- The decimal string JavaScript uses for an array index key (`String(n)`).
Implemented with explicit fuel so it reduces definitionally; fuel `n + 1`
always suffices since the recursion divides by 10. -/
def natToChars : Nat → Nat → List Char
  | 0, _ => []
  | f + 1, n =>
    if n < 10 then [Nat.digitChar n]
    else natToChars f (n / 10) ++ [Nat.digitChar (n % 10)]

/-- Decimal key of an array index, e.g. `natKey 12 = "12"`. -/
def natKey (n : Nat) : String := ⟨natToChars (n + 1) n⟩

/-- Own enumerable properties of an array: index keys `"0"`, `"1"`, … paired
with the elements, starting at index `start` (this is what `Object.keys`,
spread and property access see on a JavaScript array). -/
def indexFields : List JVal → Nat → List (String × JVal)
  | [], _ => []
  | e :: rest, start => (natKey start, e) :: indexFields rest (start + 1)

/-- Own enumerable properties seen by object spread `{...o}` and by
`Object.keys`/`Object.entries`: an object yields its fields, an array its
index-keyed elements, a string its index-keyed characters, and every other
value (including `null` and `undefined`) yields nothing. -/
def spreadFields : JVal → List (String × JVal)
  | .jObj fs => fs
  | .jArr es => indexFields es 0
  | .jStr s => indexFields (s.toList.map fun c => JVal.jStr ⟨[c]⟩) 0
  | _ => []

/-- Property access `o[k]`, `undefined` when absent.  (JavaScript throws a
TypeError on property access of `null`/`undefined`; the modelled code never
does that on the executed paths, and the model returns `undefined` instead.) -/
def jget (o : JVal) (k : String) : JVal := (lookupField (spreadFields o) k).getD .jUndefined

/-- `{...o, [k]: v}`: spread a value into an object literal and set one key. -/
def jspreadSet (o : JVal) (k : String) (v : JVal) : JVal :=
  .jObj (setField (spreadFields o) k v)

/-- `isObject` of `deep-object-diff`: `typeof x === "object" && x !== null`
(arrays included, `null` excluded). -/
def isObjLike : JVal → Bool
  | .jObj _ => true
  | .jArr _ => true
  | _ => false

/-- JavaScript truthiness (`if (x)`).  `NaN` is not modelled; `jNum` holds
mathematical integers. -/
def jTruthy : JVal → Bool
  | .jBool b => b
  | .jStr s => !s.isEmpty
  | .jNum n => n != 0
  | .jNull => false
  | .jUndefined => false
  | .jObj _ => true
  | .jArr _ => true

/-- lodash `isEmpty`: collections are empty when they have no elements/keys;
primitives, `null` and `undefined` are always "empty". -/
def jsEmpty : JVal → Bool
  | .jObj fs => fs.isEmpty
  | .jArr es => es.isEmpty
  | .jStr s => s.isEmpty
  | _ => true

/-- `ToPropertyKey` as used by `Object.fromEntries` on `column.name`.  The
Column data model fixes `name : string`, so only `jStr` matters; the other
branches model `String(v)` coarsely (arrays are not joined recursively). -/
def jKeyString : JVal → String
  | .jStr s => s
  | .jBool b => if b then "true" else "false"
  | .jNum n => toString n
  | .jNull => "null"
  | .jUndefined => "undefined"
  | .jObj _ => "[object Object]"
  | .jArr _ => ""

/-- One decimal digit value of a character, `none` for a non-digit. -/
def digitVal (c : Char) : Option Nat :=
  if '0' ≤ c ∧ c ≤ '9' then some (c.toNat - '0'.toNat) else none

/-- Accumulating decimal parse of a digit list, `none` at the first non-digit. -/
def parseChars : List Char → Nat → Option Nat
  | [], acc => some acc
  | c :: rest, acc =>
    match digitVal c with
    | some d => parseChars rest (acc * 10 + d)
    | none => none

/-- `parseInt(s, 10)` restricted to the inputs that occur here: the keys of a
structural diff of two arrays are canonical decimal numerals, on which this
agrees with `parseInt` (`NaN` is modelled as `none`; the leading-prefix
behaviour of `parseInt` on non-canonical strings is never exercised). -/
def parseIdx (s : String) : Option Nat :=
  if s.toList.isEmpty then none else parseChars s.toList 0

/-! ### Diff Engine: `diff` of the `deep-object-diff` package (v1.x)

```js
const diff = (lhs, rhs) => {
  if (lhs === rhs) return {};
  if (!isObject(lhs) || !isObject(rhs)) return rhs;
  const deletedValues = Object.keys(lhs).reduce((acc, key) => {
    return rhs.hasOwnProperty(key) ? acc : { ...acc, [key]: undefined };
  }, {});
  return Object.keys(rhs).reduce((acc, key) => {
    if (!lhs.hasOwnProperty(key)) return { ...acc, [key]: rhs[key] };
    const difference = diff(lhs[key], rhs[key]);
    if (isObject(difference) && isEmpty(difference)) return acc;
    return { ...acc, [key]: difference };
  }, deletedValues);
};
```

(The date branch is irrelevant here: no `Date` values occur.)  The function
is embedded with explicit fuel so that it reduces definitionally; `jdiff`
instantiates the fuel with `sizeOf`, which always suffices because each
recursive call descends into a proper subvalue of the right-hand side. -/

/-- The caller drops a computed child difference exactly when it is an object
(or array) with no keys. -/
def dropEmptyDiff (d : JVal) : Bool := isObjLike d && (spreadFields d).isEmpty

mutual

/-- Computable structural size, used only to instantiate the diff fuel. -/
def JVal.msize : JVal → Nat
  | .jObj fs => 1 + JVal.msizeFields fs
  | .jArr es => 1 + JVal.msizeElems es
  | _ => 1

def JVal.msizeFields : List (String × JVal) → Nat
  | [] => 0
  | (_, v) :: rest => 1 + JVal.msize v + JVal.msizeFields rest

def JVal.msizeElems : List JVal → Nat
  | [] => 0
  | v :: rest => 1 + JVal.msize v + JVal.msizeElems rest

end

/-- The `deletedValues` accumulator of `diff`: keys of the left object that
the right object does not own, each mapped to `undefined`. -/
def deletedPart (lf rf : List (String × JVal)) : List (String × JVal) :=
  (lf.filter fun p => (lookupField rf p.1).isNone).map fun p => (p.1, JVal.jUndefined)

/-- The second `reduce` of `diff`, parametric in the recursive call `D`: keys
of the right object, added outright when the left does not own them, and
otherwise carrying the child difference unless it is droppable. -/
def updWith (D : JVal → JVal → JVal) (lf : List (String × JVal)) :
    List (String × JVal) → List (String × JVal)
  | [] => []
  | p :: rest =>
    (match lookupField lf p.1 with
     | none => [p]
     | some lv =>
       let d := D lv p.2
       if dropEmptyDiff d then [] else [(p.1, d)]) ++ updWith D lf rest

/-- `deep-object-diff`'s `diff` with fuel.  `l === r` is modelled as
structural equality (sound here: when two acyclic values are structurally
equal the JavaScript recursion returns the empty object, which every caller
treats identically to the `===` shortcut). -/
def jdiffF : Nat → JVal → JVal → JVal
  | 0, _, r => r
  | fuel + 1, l, r =>
    if l = r then .jObj []
    else if isObjLike l && isObjLike r then
      .jObj (deletedPart (spreadFields l) (spreadFields r) ++
        updWith (jdiffF fuel) (spreadFields l) (spreadFields r))
    else r

/-- `diff(lhs, rhs)` of `deep-object-diff`: fuel `JVal.msize r` is always
enough (proved below as `jdiffF_fuel_irrelevant`), because every recursive
call descends into a proper subvalue of the right-hand side. -/
def jdiff (l r : JVal) : JVal := jdiffF (JVal.msize r) l r

/-! ### Patch Builder: the `changes` memo (edit.tsx lines 408-433)

```js
const changes = Object.fromEntries(
  Object.entries(diff).map(([columnIndex, changes]) => {
    const column = columns[parseInt(columnIndex, 10)];
    if (!column) return [];
    const changesObject = {
      ...changes,
      baseOptions: {
        ...changes.baseOptions,
        visibility: column.baseOptions.visibility,
      },
      fieldOptions: { ...changes.fieldOptions },
    };
    return [column.name, changesObject];
  })
);
``` -/

/-- `Object.entries` of a value (only ever applied to the object returned by
the diff). -/
def entriesOf (o : JVal) : List (String × JVal) := spreadFields o

/-- The per-column patch object built from a column's delta `ch` and the
current working column `column`. -/
def changesObject (ch column : JVal) : JVal :=
  jspreadSet
    (jspreadSet ch "baseOptions"
      (jspreadSet (jget ch "baseOptions") "visibility"
        (jget (jget column "baseOptions") "visibility")))
    "fieldOptions"
    (.jObj (spreadFields (jget ch "fieldOptions")))

/-- One mapped entry of the patch builder.  `if (!column) return []` returns
the empty pair, which `Object.fromEntries` turns into key `"undefined"` with
value `undefined`. -/
def changeEntry (columns : List JVal) (p : String × JVal) : String × JVal :=
  match parseIdx p.1 with
  | none => ("undefined", .jUndefined)
  | some i =>
    match columns.get? i with
    | none => ("undefined", .jUndefined)
    | some column =>
      if jTruthy column then (jKeyString (jget column "name"), changesObject p.2 column)
      else ("undefined", .jUndefined)

/-- `Object.fromEntries`: later entries overwrite earlier ones in place. -/
def fromEntries (l : List (String × JVal)) : List (String × JVal) :=
  l.foldl (fun acc p => setField acc p.1 p.2) []

/-- The `changes` memo as a function of the diff value and the working
sequence, as an ordered field list. -/
def changes (diffv : JVal) (columns : List JVal) : List (String × JVal) :=
  fromEntries ((entriesOf diffv).map (changeEntry columns))

/-- `diff = difference(initialColumns, columns)` (line 404-406). -/
def diffTop (initialColumns columns : List JVal) : JVal :=
  jdiff (.jArr initialColumns) (.jArr columns)

/-- `isDirty = !isEmpty(diff)` (line 407). -/
def isDirty (initialColumns columns : List JVal) : Bool :=
  !(jsEmpty (diffTop initialColumns columns))

/-! ### Column Store mutation entry point: `setColumnOption` (lines 439-472) -/

/-- JavaScript `s.split(".")` on the character list: split at every dot,
keeping empty segments (`"a..b"` gives `["a", "", "b"]`, `"."` gives
`["", ""]`). -/
def splitDotAux : List Char → List Char → List String
  | [], acc => [⟨acc.reverse⟩]
  | c :: rest, acc =>
    if c = '.' then (⟨acc.reverse⟩ : String) :: splitDotAux rest []
    else splitDotAux rest (c :: acc)

/-- `name.split(".")`. -/
def jsSplitDot (s : String) : List String := splitDotAux s.toList []

/-- Lines 444-448: `const segments = name.split(".")`; when there are
exactly two segments, `namespace` is assigned the first segment and `name` is
reassigned to the second; otherwise `namespace` stays `undefined` and `name`
keeps the original path.  The result is `(namespace, name)` after those
lines, with `none` standing for the undefined namespace. -/
def splitPath (nm : String) : Option String × String :=
  let segments := jsSplitDot nm
  if segments.length = 2 then (some (segments.headD ""), segments.getD 1 "") else (none, nm)

/-- The replacement column built by `setColumnOption` from its `column`
argument (lines 450-463): built from the argument only, never from the entry
stored in the working sequence.  `if (namespace)` at line 450 is JavaScript
truthiness: a two-segment path with an empty first segment (such as `".b"`)
leaves `namespace` the falsy `""`, so the else-branch runs with the
already-reassigned `name` — the second segment becomes a top-level key. -/
def newColumnOf (column : JVal) (nm : String) (v : JVal) : JVal :=
  match splitPath nm with
  | (some ns, key) =>
    if ns.isEmpty then jspreadSet column key v
    else jspreadSet column ns (jspreadSet (jget column ns) key v)
  | (none, key) => jspreadSet column key v

/-- `Array.prototype.findIndex`, with `-1` modelled as `none`. -/
def findIndexJS (p : JVal → Bool) : List JVal → Option Nat
  | [] => none
  | x :: rest => if p x then some 0 else (findIndexJS p rest).map (· + 1)

/-- The core of `setColumnOption`: `none` when the name is not found (then
the function makes no state update at all), otherwise the new working
sequence together with the new column passed to `setColumn`. -/
def setColumnOptionCore (columns : List JVal) (column : JVal) (nm : String) (v : JVal) :
    Option (List JVal × JVal) :=
  let nc := newColumnOf column nm v
  match findIndexJS (fun c => jget c "name" = jget column "name") columns with
  | some i => some (columns.set i nc, nc)
  | none => none

/-- `setColumnOption`'s effect on the working sequence (silent no-op when the
name is not found). -/
def setColumnOption (columns : List JVal) (column : JVal) (nm : String) (v : JVal) :
    List JVal :=
  match setColumnOptionCore columns column nm v with
  | some (cs, _) => cs
  | none => columns

/-! ### The Constraint Engine: the two `useEffect`s of `ColumnEditor`
(lines 100-115) and the React commit/effect loop around `setColumnOption`.

```js
// make nullable false when required is true (and vice versa) because they
// cannot be both true in the same time
useEffect(() => {
  if (column.baseOptions.required) {
    setColumnOption(column, "baseOptions.nullable", false);
  }
}, [column.baseOptions.required]);

useEffect(() => {
  if (column.baseOptions.nullable) {
    setColumnOption(column, "baseOptions.required", false);
    if (isEmpty(column.baseOptions.nullValues)) {
      setColumnOption(column, "baseOptions.nullValues", [""]);
    }
  }
}, [column.baseOptions.nullable]);
```

React semantics modelled: after a commit, an effect runs iff its dependency
differs from the previous render's value.  All `setColumnOption` calls made
during one round of effects close over the same committed `columns` and
`column`; the queued `setColumns(...)`/`setColumn(...)` updates are plain
(non-functional), so the last call of the round wins.  In particular the
second call in the nullable effect is built from the same stale `column` as
the first, so when `nullValues` is empty the `required = false` update of the
first call is lost. -/

def reqOf (c : JVal) : JVal := jget (jget c "baseOptions") "required"

def nulOf (c : JVal) : JVal := jget (jget c "baseOptions") "nullable"

def nvOf (c : JVal) : JVal := jget (jget c "baseOptions") "nullValues"

/-- The editor state between commits: the working sequence, the selected
column, and the dependency values `column.baseOptions.required` /
`column.baseOptions.nullable` recorded at the previous render. -/
structure EState where
  columns : List JVal
  column : JVal
  prevReq : JVal
  prevNul : JVal
  deriving DecidableEq, Repr

/-- The state update the two constraint effects produce in one round, given
which of them fires.  `none` = no setter was called (no re-render).  Effect
order is source order; within the round every call sees the committed
`cols`/`col`, and the last setter call wins. -/
def effectUpdates (cols : List JVal) (col : JVal) (fire1 fire2 : Bool) :
    Option (List JVal × JVal) :=
  let u1 :=
    if fire1 && jTruthy (reqOf col) then
      setColumnOptionCore cols col "baseOptions.nullable" (.jBool false)
    else none
  let u2 :=
    if fire2 && jTruthy (nulOf col) then
      if jsEmpty (nvOf col) then
        setColumnOptionCore cols col "baseOptions.nullValues" (.jArr [.jStr ""])
      else
        setColumnOptionCore cols col "baseOptions.required" (.jBool false)
    else none
  match u2 with
  | some u => some u
  | none => u1

/-- One commit: record the current dependency values, run the effects whose
dependency changed, and commit the surviving state update. -/
def commitStep (s : EState) : EState :=
  let req := reqOf s.column
  let nul := nulOf s.column
  let fire1 := decide (req ≠ s.prevReq)
  let fire2 := decide (nul ≠ s.prevNul)
  match effectUpdates s.columns s.column fire1 fire2 with
  | some (cs, c) => ⟨cs, c, req, nul⟩
  | none => ⟨s.columns, s.column, req, nul⟩

/-- Iterated commits.  The effect cascade here always quiesces within two
commits (after which `commitStep` is the identity), so any fuel ≥ 2 gives the
stable state. -/
def runEffects : Nat → EState → EState
  | 0, s => s
  | n + 1, s => runEffects n (commitStep s)

/-- A settled editor state: the recorded dependency values are those of the
selected column (no effect is pending). -/
def settledState (cols : List JVal) (col : JVal) : EState :=
  ⟨cols, col, reqOf col, nulOf col⟩

/-- The mutation entry point as observed by the rest of the system: a UI
event calls `setColumnOption(c, path, v)`; if the name is found the state is
committed and the constraint effects run to quiescence (fuel 3 is more than
the ≤ 2 commits any cascade here needs); if not, nothing happens at all. -/
def mutate (s : EState) (c : JVal) (path : String) (v : JVal) : EState :=
  match setColumnOptionCore s.columns c path v with
  | some (cs, nc) => runEffects 3 ⟨cs, nc, s.prevReq, s.prevNul⟩
  | none => s

/-! ### Lemmas: field lookup and update -/

theorem lookupField_setField_self (fs : List (String × JVal)) (k : String) (v : JVal) :
    lookupField (setField fs k v) k = some v := by
  induction fs with
  | nil => simp [setField, lookupField]
  | cons p rest ih =>
    obtain ⟨k2, v2⟩ := p
    by_cases h : k2 = k <;> simp [setField, lookupField, h, ih]

theorem lookupField_setField_ne (fs : List (String × JVal)) (k k2 : String) (v : JVal)
    (h : k2 ≠ k) : lookupField (setField fs k2 v) k = lookupField fs k := by
  induction fs with
  | nil => simp [setField, lookupField, h]
  | cons p rest ih =>
    obtain ⟨k3, v3⟩ := p
    by_cases h3 : k3 = k2
    · subst h3
      simp [setField, lookupField, h]
    · simp only [setField, if_neg h3]
      by_cases h4 : k3 = k <;> simp [lookupField, h4, ih]

theorem jget_jspreadSet_self (o : JVal) (k : String) (v : JVal) :
    jget (jspreadSet o k v) k = v := by
  simp [jget, jspreadSet, spreadFields, lookupField_setField_self]

theorem jget_jspreadSet_ne (o : JVal) (k k2 : String) (v : JVal) (h : k2 ≠ k) :
    jget (jspreadSet o k2 v) k = jget o k := by
  simp [jget, jspreadSet, spreadFields, lookupField_setField_ne _ _ _ _ h]

/-! ### Lemmas: decimal index keys round-trip through `parseInt` -/

theorem digitVal_digitChar : ∀ d < 10, digitVal (Nat.digitChar d) = some d := by decide

theorem parseChars_append (xs ys : List Char) (acc : Nat) :
    parseChars (xs ++ ys) acc =
      match parseChars xs acc with
      | some m => parseChars ys m
      | none => none := by
  induction xs generalizing acc with
  | nil => simp [parseChars]
  | cons c rest ih =>
    simp only [List.cons_append, parseChars]
    cases digitVal c with
    | none => simp
    | some d => simp [ih]

theorem parseChars_natToChars (n : Nat) : ∀ f acc, n < f →
    parseChars (natToChars f n) acc =
      some (acc * 10 ^ (natToChars f n).length + n) := by
  induction n using Nat.strong_induction_on with
  | _ n ih =>
    intro f acc hf
    match f, hf with
    | f + 1, _ =>
      by_cases h10 : n < 10
      · simp [natToChars, h10, parseChars, digitVal_digitChar n h10]
      · have hdiv : n / 10 < n := Nat.div_lt_self (by omega) (by omega)
        have hfd : n / 10 < f := by omega
        simp only [natToChars, if_neg h10, parseChars_append,
          ih (n / 10) hdiv f acc hfd]
        have hmod : n % 10 < 10 := Nat.mod_lt _ (by omega)
        simp only [parseChars, digitVal_digitChar _ hmod, List.length_append,
          List.length_cons, List.length_nil]
        have : (acc * 10 ^ (natToChars f (n / 10)).length + n / 10) * 10 + n % 10 =
            acc * 10 ^ ((natToChars f (n / 10)).length + (0 + 1)) + n := by
          have := Nat.div_add_mod n 10
          ring_nf
          omega
        rw [this]

theorem natToChars_ne_nil (f n : Nat) (hf : n < f) : natToChars f n ≠ [] := by
  match f, hf with
  | f + 1, _ =>
    by_cases h10 : n < 10 <;> simp [natToChars, h10]

theorem toList_mk (cs : List Char) : String.toList ⟨cs⟩ = cs := rfl

theorem parseIdx_natKey (n : Nat) : parseIdx (natKey n) = some n := by
  have hne := natToChars_ne_nil (n + 1) n (Nat.lt_succ_self n)
  have hp := parseChars_natToChars n (n + 1) 0 (Nat.lt_succ_self n)
  simp only [parseIdx, natKey, toList_mk, List.isEmpty_iff, hne, if_neg, hp,
    Nat.zero_mul, Nat.zero_add]
  simp [hne]

theorem natKey_injective (m n : Nat) (h : natKey m = natKey n) : m = n := by
  have hm := parseIdx_natKey m
  have hn := parseIdx_natKey n
  rw [h, hn] at hm
  exact (Option.some.injEq _ _).mp hm.symm

/-! ### Lemmas: the diff fuel is irrelevant once large enough -/

theorem msize_pos (r : JVal) : 1 ≤ JVal.msize r := by
  cases r <;> simp [JVal.msize]

theorem mem_of_mem_indexFields (es : List JVal) (n : Nat) (k : String) (v : JVal)
    (h : (k, v) ∈ indexFields es n) : v ∈ es := by
  induction es generalizing n with
  | nil => simp [indexFields] at h
  | cons e rest ih =>
    simp only [indexFields, List.mem_cons, Prod.mk.injEq] at h
    rcases h with ⟨_, rfl⟩ | h
    · exact List.mem_cons_self _ _
    · exact List.mem_cons_of_mem _ (ih (n + 1) h)

theorem msize_le_of_mem_elems (es : List JVal) (v : JVal) (h : v ∈ es) :
    JVal.msize v ≤ JVal.msizeElems es := by
  induction es with
  | nil => simp at h
  | cons e rest ih =>
    rcases List.mem_cons.mp h with rfl | h
    · simp [JVal.msizeElems]
      omega
    · have := ih h
      simp [JVal.msizeElems]
      omega

theorem msize_le_of_mem_fields (fs : List (String × JVal)) (k : String) (v : JVal)
    (h : (k, v) ∈ fs) : JVal.msize v ≤ JVal.msizeFields fs := by
  induction fs with
  | nil => simp at h
  | cons p rest ih =>
    obtain ⟨k2, v2⟩ := p
    rcases List.mem_cons.mp h with heq | h
    · obtain ⟨rfl, rfl⟩ := Prod.mk.injEq .. ▸ heq
      simp [JVal.msizeFields]
      omega
    · have := ih h
      simp [JVal.msizeFields]
      omega

theorem msize_lt_of_mem_spreadFields (r : JVal) (k : String) (v : JVal)
    (hobj : isObjLike r = true) (h : (k, v) ∈ spreadFields r) :
    JVal.msize v < JVal.msize r := by
  cases r with
  | jObj fs =>
    have := msize_le_of_mem_fields fs k v h
    simp [JVal.msize]
    omega
  | jArr es =>
    have := msize_le_of_mem_elems es v (mem_of_mem_indexFields es 0 k v h)
    simp [JVal.msize]
    omega
  | jBool b => simp [isObjLike] at hobj
  | jStr s => simp [isObjLike] at hobj
  | jNum n => simp [isObjLike] at hobj
  | jNull => simp [isObjLike] at hobj
  | jUndefined => simp [isObjLike] at hobj

theorem updWith_congr (D D2 : JVal → JVal → JVal) (lf : List (String × JVal)) :
    ∀ rf : List (String × JVal), (∀ p ∈ rf, ∀ lv : JVal, D lv p.2 = D2 lv p.2) →
      updWith D lf rf = updWith D2 lf rf := by
  intro rf
  induction rf with
  | nil => intro _; rfl
  | cons p rest ih =>
    intro h
    have hp := h p (List.mem_cons_self _ _)
    have hrest := ih fun q hq lv => h q (List.mem_cons_of_mem _ hq) lv
    simp only [updWith, hrest]
    cases lookupField lf p.1 with
    | none => rfl
    | some lv => simp [hp lv]

theorem jdiffF_fuel_irrelevant :
    ∀ (n : Nat) (r l : JVal) (f : Nat), JVal.msize r ≤ n → JVal.msize r ≤ f →
      jdiffF f l r = jdiff l r := by
  intro n
  induction n using Nat.strong_induction_on with
  | _ n ih =>
    intro r l f hn hf
    have h1 := msize_pos r
    obtain ⟨f2, rfl⟩ : ∃ f2, f = f2 + 1 := ⟨f - 1, by omega⟩
    obtain ⟨m2, hm⟩ : ∃ m2, JVal.msize r = m2 + 1 := ⟨JVal.msize r - 1, by omega⟩
    show jdiffF (f2 + 1) l r = jdiffF (JVal.msize r) l r
    rw [hm]
    simp only [jdiffF]
    by_cases heq : l = r
    · simp [heq]
    · simp only [if_neg heq]
      by_cases hobj : (isObjLike l && isObjLike r) = true
      · have hobjr : isObjLike r = true := (Bool.and_eq_true ..).mp hobj |>.2
        have hinner : ∀ p ∈ spreadFields r, ∀ lv : JVal,
            jdiffF f2 lv p.2 = jdiff lv p.2 ∧ jdiffF m2 lv p.2 = jdiff lv p.2 := by
          intro p hp lv
          obtain ⟨k, v⟩ := p
          have hlt := msize_lt_of_mem_spreadFields r k v hobjr hp
          exact ⟨ih (JVal.msize v) (by omega) v lv f2 (by omega) (by omega),
            ih (JVal.msize v) (by omega) v lv m2 (by omega) (by omega)⟩
        simp only [hobj, if_pos]
        congr 1
        congr 1
        calc updWith (jdiffF f2) (spreadFields l) (spreadFields r)
            = updWith jdiff (spreadFields l) (spreadFields r) :=
              updWith_congr _ _ _ _ fun p hp lv => (hinner p hp lv).1
          _ = updWith (jdiffF m2) (spreadFields l) (spreadFields r) :=
              (updWith_congr _ _ _ _ fun p hp lv => (hinner p hp lv).2).symm
      · simp [hobj]

/-- One-step unfolding of `jdiff` with the recursive occurrences already at
their stable fuel. -/
theorem jdiff_eq (l r : JVal) :
    jdiff l r =
      if l = r then .jObj []
      else if isObjLike l && isObjLike r then
        .jObj (deletedPart (spreadFields l) (spreadFields r) ++
          updWith jdiff (spreadFields l) (spreadFields r))
      else r := by
  have h1 := msize_pos r
  obtain ⟨m2, hm⟩ : ∃ m2, JVal.msize r = m2 + 1 := ⟨JVal.msize r - 1, by omega⟩
  show jdiffF (JVal.msize r) l r = _
  rw [hm]
  simp only [jdiffF]
  by_cases heq : l = r
  · simp [heq]
  · simp only [if_neg heq]
    by_cases hobj : (isObjLike l && isObjLike r) = true
    · have hobjr : isObjLike r = true := (Bool.and_eq_true ..).mp hobj |>.2
      simp only [hobj, if_pos]
      congr 2
      apply updWith_congr
      intro p hp lv
      obtain ⟨k, v⟩ := p
      have hlt := msize_lt_of_mem_spreadFields r k v hobjr hp
      exact jdiffF_fuel_irrelevant (JVal.msize v) v lv m2 (by omega) (by omega)
    · simp [hobj]

theorem jdiff_refl (x : JVal) : jdiff x x = .jObj [] := by
  rw [jdiff_eq]
  simp

/-! ### Lemmas: looking up array index keys -/

theorem lookupField_indexFields_of_lt (es : List JVal) :
    ∀ (n j : Nat), j < es.length →
      lookupField (indexFields es n) (natKey (n + j)) = es.get? j := by
  induction es with
  | nil => intro n j h; simp at h
  | cons e rest ih =>
    intro n j h
    cases j with
    | zero => simp [indexFields, lookupField]
    | succ j2 =>
      have hne : natKey n ≠ natKey (n + (j2 + 1)) := by
        intro hk
        have := natKey_injective _ _ hk
        omega
      have := ih (n + 1) j2 (by simpa using h)
      simp only [indexFields, lookupField, if_neg hne, List.get?_cons_succ]
      have harg : n + 1 + j2 = n + (j2 + 1) := by omega
      rw [harg] at this
      exact this

theorem lookupField_indexFields_none (es : List JVal) :
    ∀ (n m : Nat), (m < n ∨ n + es.length ≤ m) →
      lookupField (indexFields es n) (natKey m) = none := by
  induction es with
  | nil => intro n m _; simp [indexFields, lookupField]
  | cons e rest ih =>
    intro n m h
    have hne : natKey n ≠ natKey m := by
      intro hk
      have := natKey_injective _ _ hk
      simp at h
      omega
    simp only [indexFields, lookupField, if_neg hne]
    apply ih (n + 1) m
    simp at h ⊢
    omega

theorem mem_indexFields_of_get (es : List JVal) :
    ∀ (n j : Nat) (v : JVal), es.get? j = some v →
      (natKey (n + j), v) ∈ indexFields es n := by
  induction es with
  | nil => intro n j v h; simp at h
  | cons e rest ih =>
    intro n j v h
    cases j with
    | zero =>
      simp only [List.get?_cons_zero, Option.some.injEq] at h
      subst h
      simp [indexFields]
    | succ j2 =>
      have := ih (n + 1) j2 v (by simpa using h)
      have harg : n + 1 + j2 = n + (j2 + 1) := by omega
      rw [harg] at this
      simp [indexFields, this]

/-! ### Lemmas: the diff of two index-aligned arrays -/

theorem mem_indexFields_shape (es : List JVal) :
    ∀ (n : Nat) (k : String) (v : JVal), (k, v) ∈ indexFields es n →
      ∃ j, j < es.length ∧ k = natKey (n + j) ∧ es.get? j = some v := by
  induction es with
  | nil => intro n k v h; simp [indexFields] at h
  | cons e rest ih =>
    intro n k v h
    simp only [indexFields, List.mem_cons, Prod.mk.injEq] at h
    rcases h with ⟨rfl, rfl⟩ | h
    · exact ⟨0, by simp⟩
    · obtain ⟨j, hj, hk, hv⟩ := ih (n + 1) k v h
      exact ⟨j + 1, by simpa using hj, by rw [hk]; congr 1; omega, by simpa using hv⟩

theorem deletedPart_indexFields_eq_nil (b w : List JVal)
    (hlen : b.length ≤ w.length) :
    deletedPart (indexFields b 0) (indexFields w 0) = [] := by
  have hfilter :
      (indexFields b 0).filter (fun p => (lookupField (indexFields w 0) p.1).isNone) = [] := by
    rw [List.filter_eq_nil_iff]
    intro p hp
    obtain ⟨k, v⟩ := p
    obtain ⟨j, hj, hk, hv⟩ := mem_indexFields_shape b 0 k v hp
    have hjw : j < w.length := by omega
    have hwv : w.get? j = some (w.get ⟨j, hjw⟩) := List.get?_eq_get hjw
    have := lookupField_indexFields_of_lt w 0 j hjw
    simp only [Nat.zero_add] at this hk
    simp [hk, this, hwv]
    omega
  simp [deletedPart, hfilter]

theorem dropEmptyDiff_jObj (d : List (String × JVal)) :
    dropEmptyDiff (.jObj d) = d.isEmpty := by
  simp [dropEmptyDiff, isObjLike, spreadFields]

theorem updWith_indexFields_single (b w : List JVal) (i : Nat) (d : List (String × JVal))
    (hlen : b.length = w.length) (hi : i < w.length)
    (hoff : ∀ j, j < w.length → j ≠ i → b.get? j = w.get? j)
    (hd : ∀ bi wi, b.get? i = some bi → w.get? i = some wi → jdiff bi wi = .jObj d)
    (hne : d ≠ []) :
    ∀ (ws : List JVal) (n : Nat),
      (∀ j, j < ws.length → ws.get? j = w.get? (n + j)) →
      n + ws.length = w.length →
      updWith jdiff (indexFields b 0) (indexFields ws n) =
        if n ≤ i ∧ i < n + ws.length then [(natKey i, .jObj d)] else [] := by
  intro ws
  induction ws with
  | nil =>
    intro n _ hlen2
    rw [if_neg (by simp only [List.length_nil]; omega)]
    simp [indexFields, updWith]
  | cons wv wrest ih =>
    intro n hsub hlen2
    simp only [List.length_cons] at hlen2
    have hnw : n < w.length := by omega
    have hnb : n < b.length := by omega
    have hbn : b.get? n = some (b.get ⟨n, hnb⟩) := List.get?_eq_get hnb
    have hwn : w.get? n = some wv := by
      have h0 := hsub 0 (by simp)
      simp only [List.get?_cons_zero, Nat.add_zero] at h0
      exact h0.symm
    have hlook : lookupField (indexFields b 0) (natKey n) = some (b.get ⟨n, hnb⟩) := by
      have h2 := lookupField_indexFields_of_lt b 0 n hnb
      rw [Nat.zero_add] at h2
      rw [h2, hbn]
    have hrest := ih (n + 1)
      (fun j hj => by
        have h3 := hsub (j + 1) (by simpa using hj)
        simp only [List.get?_cons_succ] at h3
        rw [h3]
        congr 1
        omega)
      (by omega)
    simp only [indexFields, updWith, hlook, hrest]
    by_cases hni : n = i
    · subst hni
      have hdd : jdiff (b.get ⟨n, hnb⟩) wv = .jObj d := hd _ _ hbn hwn
      have hemp : dropEmptyDiff (.jObj d) = false := by
        rw [dropEmptyDiff_jObj]
        simpa [List.isEmpty_iff] using hne
      rw [hdd]
      simp only [hemp, Bool.false_eq_true, if_neg, if_false]
      rw [if_neg (by omega), if_pos (by simp only [List.length_cons]; omega)]
      simp
    · have hbw : b.get? n = w.get? n := hoff n hnw hni
      have hsame : b.get ⟨n, hnb⟩ = wv := by
        rw [hbn, hwn] at hbw
        simpa using hbw
      rw [hsame, jdiff_refl]
      have hemp : dropEmptyDiff (.jObj []) = true := by simp [dropEmptyDiff_jObj]
      rw [hemp]
      simp only [if_true, List.nil_append]
      by_cases hcond : n + 1 ≤ i ∧ i < n + 1 + wrest.length
      · rw [if_pos hcond, if_pos (by simp only [List.length_cons]; omega)]
      · rw [if_neg hcond, if_neg (by simp only [List.length_cons]; omega)]

/-- The structural diff of two equal-length arrays differing exactly at index
`i` (with a non-droppable object delta there) is the singleton object keyed
by the decimal index. -/
theorem jdiff_arrays_single (b w : List JVal) (i : Nat) (d : List (String × JVal))
    (hlen : b.length = w.length) (hi : i < w.length)
    (hoff : ∀ j, j < w.length → j ≠ i → b.get? j = w.get? j)
    (hd : ∀ bi wi, b.get? i = some bi → w.get? i = some wi → jdiff bi wi = .jObj d)
    (hne : d ≠ []) :
    jdiff (.jArr b) (.jArr w) = .jObj [(natKey i, .jObj d)] := by
  have hiw : i < w.length := hi
  have hwi : w.get? i = some (w.get ⟨i, hiw⟩) := List.get?_eq_get hiw
  have hneq : (JVal.jArr b) ≠ (.jArr w) := by
    intro hcontra
    have hbw : b = w := by simpa using hcontra
    subst hbw
    have := hd _ _ hwi hwi
    rw [jdiff_refl] at this
    exact hne (by simpa using this.symm)
  rw [jdiff_eq, if_neg hneq]
  have hobj : (isObjLike (.jArr b) && isObjLike (.jArr w)) = true := by
    simp [isObjLike]
  rw [if_pos hobj]
  simp only [spreadFields]
  rw [deletedPart_indexFields_eq_nil b w (by omega)]
  rw [updWith_indexFields_single b w i d hlen hi hoff hd hne w 0
    (fun j hj => by rw [Nat.zero_add]) (Nat.zero_add _)]
  rw [if_pos ⟨Nat.zero_le i, by omega⟩]
  simp

theorem mem_updWith_of_lookup_none (D : JVal → JVal → JVal)
    (lf : List (String × JVal)) :
    ∀ (rf : List (String × JVal)) (p : String × JVal), p ∈ rf →
      lookupField lf p.1 = none → p ∈ updWith D lf rf := by
  intro rf
  induction rf with
  | nil => intro p hp _; simp at hp
  | cons q rest ih =>
    intro p hp hnone
    rcases List.mem_cons.mp hp with rfl | hp2
    · simp only [updWith, hnone]
      exact List.mem_append_left _ (List.mem_singleton.mpr rfl)
    · exact List.mem_append_right _ (ih p hp2 hnone)

/-- The structural diff of two arrays of different lengths returns an object:
every index the baseline owns beyond the working sequence maps to
`undefined`, and every index the working sequence owns beyond the baseline
carries the full new element.  No failure of any kind occurs. -/
theorem jdiff_arrays_length_mismatch (b w : List JVal) (h : b.length ≠ w.length) :
    ∃ fs, jdiff (.jArr b) (.jArr w) = .jObj fs ∧
      (∀ j, w.length ≤ j → j < b.length → (natKey j, .jUndefined) ∈ fs) ∧
      (∀ j v, b.length ≤ j → w.get? j = some v → (natKey j, v) ∈ fs) := by
  have hneq : (JVal.jArr b) ≠ (.jArr w) := by
    intro hcontra
    have hbw : b = w := by simpa using hcontra
    subst hbw
    exact h rfl
  rw [jdiff_eq, if_neg hneq]
  have hobj : (isObjLike (.jArr b) && isObjLike (.jArr w)) = true := by
    simp [isObjLike]
  rw [if_pos hobj]
  refine ⟨_, rfl, ?_, ?_⟩
  · intro j hjw hjb
    apply List.mem_append_left
    have hb : b.get? j = some (b.get ⟨j, hjb⟩) := List.get?_eq_get hjb
    have hmem := mem_indexFields_of_get b 0 j _ hb
    rw [Nat.zero_add] at hmem
    have hnone : lookupField (indexFields w 0) (natKey j) = none :=
      lookupField_indexFields_none w 0 j (Or.inr (by omega))
    simp only [spreadFields, deletedPart]
    apply List.mem_map.mpr
    refine ⟨(natKey j, b.get ⟨j, hjb⟩), ?_, rfl⟩
    apply List.mem_filter.mpr
    exact ⟨hmem, by simp [hnone]⟩
  · intro j v hjb hwv
    apply List.mem_append_right
    have hmem := mem_indexFields_of_get w 0 j v hwv
    rw [Nat.zero_add] at hmem
    have hnone : lookupField (indexFields b 0) (natKey j) = none :=
      lookupField_indexFields_none b 0 j (Or.inr (by omega))
    simp only [spreadFields]
    exact mem_updWith_of_lookup_none jdiff (indexFields b 0) (indexFields w 0)
      (natKey j, v) hmem hnone

/-! ### Lemmas: the patch object built per column -/

theorem jget_jObj_spreadFields (o : JVal) (k : String) :
    jget (.jObj (spreadFields o)) k = jget o k := rfl

theorem changesObject_baseOptions (ch col : JVal) :
    jget (changesObject ch col) "baseOptions" =
      jspreadSet (jget ch "baseOptions") "visibility"
        (jget (jget col "baseOptions") "visibility") := by
  unfold changesObject
  rw [jget_jspreadSet_ne _ _ _ _ (by decide), jget_jspreadSet_self]

theorem changesObject_visibility (ch col : JVal) :
    jget (jget (changesObject ch col) "baseOptions") "visibility" =
      jget (jget col "baseOptions") "visibility" := by
  rw [changesObject_baseOptions, jget_jspreadSet_self]

theorem changesObject_baseOptions_passthrough (ch col : JVal) (k : String)
    (h : k ≠ "visibility") :
    jget (jget (changesObject ch col) "baseOptions") k = jget (jget ch "baseOptions") k := by
  rw [changesObject_baseOptions, jget_jspreadSet_ne _ _ _ _ (Ne.symm h)]

theorem changesObject_fieldOptions (ch col : JVal) (k : String) :
    jget (jget (changesObject ch col) "fieldOptions") k = jget (jget ch "fieldOptions") k := by
  unfold changesObject
  rw [jget_jspreadSet_self, jget_jObj_spreadFields]

theorem changeEntry_of_found (cols : List JVal) (k : String) (delta col : JVal) (i : Nat)
    (hk : parseIdx k = some i) (hcol : cols.get? i = some col) (ht : jTruthy col = true) :
    changeEntry cols (k, delta) =
      (jKeyString (jget col "name"), changesObject delta col) := by
  have hcol2 : cols[i]? = some col := by
    rw [← List.get?_eq_getElem?]
    exact hcol
  simp [changeEntry, hk, hcol2, ht]

/-! ### Lemmas: `setColumnOption` -/

theorem findIndexJS_append_cons (p : JVal → Bool) (pre : List JVal) (x : JVal)
    (post : List JVal) (hpre : ∀ y ∈ pre, p y = false) (hx : p x = true) :
    findIndexJS p (pre ++ x :: post) = some pre.length := by
  induction pre with
  | nil => simp [findIndexJS, hx]
  | cons z rest ih =>
    have hz := hpre z (List.mem_cons_self _ _)
    have := ih fun y hy => hpre y (List.mem_cons_of_mem _ hy)
    simp [findIndexJS, hz, this]

theorem set_append_cons (pre : List JVal) (x y : JVal) (post : List JVal) :
    (pre ++ x :: post).set pre.length y = pre ++ y :: post := by
  induction pre with
  | nil => simp
  | cons z rest ih => simp [List.set, ih]

theorem newColumnOf_two_segments (col : JVal) (path a b : String) (v : JVal)
    (hsplit : jsSplitDot path = [a, b]) (hne : a.isEmpty = false) :
    newColumnOf col path v = jspreadSet col a (jspreadSet (jget col a) b v) := by
  simp [newColumnOf, splitPath, hsplit, hne]

theorem newColumnOf_empty_namespace (col : JVal) (path b : String) (v : JVal)
    (hsplit : jsSplitDot path = ["", b]) :
    newColumnOf col path v = jspreadSet col b v := by
  have hemp : ("" : String).isEmpty = true := by decide
  simp [newColumnOf, splitPath, hsplit, hemp]

theorem newColumnOf_other (col : JVal) (path : String) (v : JVal)
    (hsplit : (jsSplitDot path).length ≠ 2) :
    newColumnOf col path v = jspreadSet col path v := by
  simp [newColumnOf, splitPath, hsplit]

/-! ### Lemmas: base-option writes and the constraint-effect round -/

theorem field_of_bset_self (c : JVal) (bk : String) (v : JVal) :
    jget (jget (jspreadSet c "baseOptions" (jspreadSet (jget c "baseOptions") bk v))
      "baseOptions") bk = v := by
  rw [jget_jspreadSet_self, jget_jspreadSet_self]

theorem field_of_bset_other (c : JVal) (bk f : String) (v : JVal) (h : f ≠ bk) :
    jget (jget (jspreadSet c "baseOptions" (jspreadSet (jget c "baseOptions") bk v))
      "baseOptions") f = jget (jget c "baseOptions") f := by
  rw [jget_jspreadSet_self, jget_jspreadSet_ne _ _ _ _ (Ne.symm h)]

theorem top_of_bset (c : JVal) (bk f : String) (v : JVal) (h : f ≠ "baseOptions") :
    jget (jspreadSet c "baseOptions" (jspreadSet (jget c "baseOptions") bk v)) f =
      jget c f :=
  jget_jspreadSet_ne _ _ _ _ (Ne.symm h)

theorem effectUpdates_false_false (cols : List JVal) (col : JVal) :
    effectUpdates cols col false false = none := by
  simp [effectUpdates]

theorem effectUpdates_any_nulFalse (cols : List JVal) (col : JVal) (b1 b2 : Bool)
    (h1 : (b1 && jTruthy (reqOf col)) = false) (h2 : jTruthy (nulOf col) = false) :
    effectUpdates cols col b1 b2 = none := by
  simp [effectUpdates, h1, h2]

theorem effectUpdates_fire1 (cols : List JVal) (col : JVal) (b2 : Bool)
    (h1 : jTruthy (reqOf col) = true) (h2 : (b2 && jTruthy (nulOf col)) = false) :
    effectUpdates cols col true b2 =
      setColumnOptionCore cols col "baseOptions.nullable" (.jBool false) := by
  simp only [effectUpdates, h1, h2, Bool.and_true, if_true, if_false]
  cases setColumnOptionCore cols col "baseOptions.nullable" (.jBool false) with
  | none => rfl
  | some u => rfl

theorem effectUpdates_fire2_empty (cols : List JVal) (col : JVal) (b1 : Bool)
    (h1 : jTruthy (nulOf col) = true) (h2 : jsEmpty (nvOf col) = true)
    (hfound : (setColumnOptionCore cols col "baseOptions.nullValues"
      (.jArr [.jStr ""])).isSome) :
    effectUpdates cols col b1 true =
      setColumnOptionCore cols col "baseOptions.nullValues" (.jArr [.jStr ""]) := by
  simp only [effectUpdates, h1, h2, Bool.and_true, if_true]
  cases hcore : setColumnOptionCore cols col "baseOptions.nullValues" (.jArr [.jStr ""]) with
  | none => rw [hcore] at hfound; simp at hfound
  | some u => rfl

theorem commitStep_mk (cols : List JVal) (col : JVal) (pr pn : JVal) :
    commitStep ⟨cols, col, pr, pn⟩ =
      match effectUpdates cols col (decide (reqOf col ≠ pr)) (decide (nulOf col ≠ pn)) with
      | some (cs, c2) => ⟨cs, c2, reqOf col, nulOf col⟩
      | none => ⟨cols, col, reqOf col, nulOf col⟩ := rfl

theorem commitStep_settled (cols : List JVal) (col : JVal) :
    commitStep ⟨cols, col, reqOf col, nulOf col⟩ = ⟨cols, col, reqOf col, nulOf col⟩ := by
  rw [commitStep_mk]
  simp [effectUpdates_false_false]

theorem findIndexJS_eq_none (p : JVal → Bool) (l : List JVal)
    (h : ∀ x ∈ l, p x = false) : findIndexJS p l = none := by
  induction l with
  | nil => rfl
  | cons x rest ih =>
    have hx := h x (List.mem_cons_self _ _)
    have := ih fun y hy => h y (List.mem_cons_of_mem _ hy)
    simp [findIndexJS, hx, this]

theorem findIndexJS_lt_length (p : JVal → Bool) :
    ∀ (l : List JVal) (i : Nat), findIndexJS p l = some i → i < l.length := by
  intro l
  induction l with
  | nil => intro i h; simp [findIndexJS] at h
  | cons x rest ih =>
    intro i h
    by_cases hx : p x
    · simp only [findIndexJS, hx, if_true, Option.some.injEq] at h
      simp [← h]
    · simp only [findIndexJS, hx, Bool.false_eq_true, if_false, Option.map_eq_some'] at h
      obtain ⟨j, hj, rfl⟩ := h
      have := ih j hj
      simp
      omega

theorem get?_append_cons (pre : List JVal) (x : JVal) (post : List JVal) :
    (pre ++ x :: post).get? pre.length = some x := by
  induction pre with
  | nil => rfl
  | cons z rest ih => simpa using ih

theorem setColumnOptionCore_append (pre post : List JVal) (c arg : JVal) (nm : String)
    (v : JVal)
    (hpre : ∀ y ∈ pre, jget y "name" ≠ jget arg "name")
    (hc : jget c "name" = jget arg "name") :
    setColumnOptionCore (pre ++ c :: post) arg nm v =
      some (pre ++ newColumnOf arg nm v :: post, newColumnOf arg nm v) := by
  unfold setColumnOptionCore
  rw [findIndexJS_append_cons _ pre c post
    (fun y hy => by simpa using hpre y hy) (by simpa using hc)]
  simp only []
  rw [set_append_cons]

theorem setColumnOption_append (pre post : List JVal) (c arg : JVal) (nm : String)
    (v : JVal)
    (hpre : ∀ y ∈ pre, jget y "name" ≠ jget arg "name")
    (hc : jget c "name" = jget arg "name") :
    setColumnOption (pre ++ c :: post) arg nm v = pre ++ newColumnOf arg nm v :: post := by
  unfold setColumnOption
  rw [setColumnOptionCore_append pre post c arg nm v hpre hc]

/-! ## Claim theorems -/

/-- C3 counterexample: with baseline
`[{name:"a", baseOptions:{visibility:["index"], nullValues:[""]}}]` and the
working copy changing only `nullValues` to `["", "null"]`, the built
change-set entry for `"a"` carries `nullValues` as the index-keyed partial
object `{1: "null"}` produced by the diff library, not the complete final
array `["", "null"]` — refuting the claim for the `nullValues` field. -/
theorem C3_counterexample :
    jget (jget (jget (.jObj (changes
      (diffTop
        [.jObj [("name", .jStr "a"),
                ("baseOptions", .jObj [("visibility", .jArr [.jStr "index"]),
                                       ("nullValues", .jArr [.jStr ""])])]]
        [.jObj [("name", .jStr "a"),
                ("baseOptions", .jObj [("visibility", .jArr [.jStr "index"]),
                                       ("nullValues", .jArr [.jStr "", .jStr "null"])])]])
      [.jObj [("name", .jStr "a"),
              ("baseOptions", .jObj [("visibility", .jArr [.jStr "index"]),
                                     ("nullValues", .jArr [.jStr "", .jStr "null"])])]]))
      "a") "baseOptions") "nullValues" = .jObj [("1", .jStr "null")] ∧
    jget (jget (jget (.jObj (changes
      (diffTop
        [.jObj [("name", .jStr "a"),
                ("baseOptions", .jObj [("visibility", .jArr [.jStr "index"]),
                                       ("nullValues", .jArr [.jStr ""])])]]
        [.jObj [("name", .jStr "a"),
                ("baseOptions", .jObj [("visibility", .jArr [.jStr "index"]),
                                       ("nullValues", .jArr [.jStr "", .jStr "null"])])]])
      [.jObj [("name", .jStr "a"),
              ("baseOptions", .jObj [("visibility", .jArr [.jStr "index"]),
                                     ("nullValues", .jArr [.jStr "", .jStr "null"])])]]))
      "a") "baseOptions") "nullValues" ≠ .jArr [.jStr "", .jStr "null"] := by
  constructor
  · decide
  · decide

/-- C3 (amended): in every built change-set entry, `baseOptions.visibility`
is force-included as the complete current array of the working column, while
every other `baseOptions` field — `nullValues` included — is passed through
exactly as the diff produced it (for an array-valued field that is the
index-keyed partial object, not the complete array). -/
theorem C3_array_handling_amended (delta col : JVal) (k : String) (h : k ≠ "visibility") :
    jget (jget (changesObject delta col) "baseOptions") "visibility" =
      jget (jget col "baseOptions") "visibility" ∧
    jget (jget (changesObject delta col) "baseOptions") k =
      jget (jget delta "baseOptions") k :=
  ⟨changesObject_visibility delta col, changesObject_baseOptions_passthrough delta col k h⟩

/-- C3 witness: the amended theorem applied at `k = "nullValues"` on a
concrete delta and column. -/
theorem C3_witness :
    jget (jget (changesObject (.jObj [("baseOptions", .jObj [("nullValues",
        .jObj [("1", .jStr "null")])])])
      (.jObj [("baseOptions", .jObj [("visibility", .jArr [.jStr "index"])])]))
      "baseOptions") "visibility" =
      jget (jget (.jObj [("baseOptions", .jObj [("visibility", .jArr [.jStr "index"])])])
        "baseOptions") "visibility" ∧
    jget (jget (changesObject (.jObj [("baseOptions", .jObj [("nullValues",
        .jObj [("1", .jStr "null")])])])
      (.jObj [("baseOptions", .jObj [("visibility", .jArr [.jStr "index"])])]))
      "baseOptions") "nullValues" =
      jget (jget (.jObj [("baseOptions", .jObj [("nullValues",
        .jObj [("1", .jStr "null")])])]) "baseOptions") "nullValues" :=
  C3_array_handling_amended _ _ "nullValues" (by decide)

/-- C4 counterexample: with working `fieldOptions = {a: 1, b: 3}` and only
`b` changed from the baseline, the built entry's `fieldOptions` is `{b: 3}` —
the changed key only — and lacks the key `a` carried by the full current
`fieldOptions` object, refuting the claimed force-include of the full
object. -/
theorem C4_counterexample :
    jget (jget (.jObj (changes
      (diffTop
        [.jObj [("name", .jStr "a"),
                ("baseOptions", .jObj [("visibility", .jArr [.jStr "index"])]),
                ("fieldOptions", .jObj [("a", .jNum 1), ("b", .jNum 2)])]]
        [.jObj [("name", .jStr "a"),
                ("baseOptions", .jObj [("visibility", .jArr [.jStr "index"])]),
                ("fieldOptions", .jObj [("a", .jNum 1), ("b", .jNum 3)])]])
      [.jObj [("name", .jStr "a"),
              ("baseOptions", .jObj [("visibility", .jArr [.jStr "index"])]),
              ("fieldOptions", .jObj [("a", .jNum 1), ("b", .jNum 3)])]]))
      "a") "fieldOptions" = .jObj [("b", .jNum 3)] ∧
    jget (jget (jget (.jObj (changes
      (diffTop
        [.jObj [("name", .jStr "a"),
                ("baseOptions", .jObj [("visibility", .jArr [.jStr "index"])]),
                ("fieldOptions", .jObj [("a", .jNum 1), ("b", .jNum 2)])]]
        [.jObj [("name", .jStr "a"),
                ("baseOptions", .jObj [("visibility", .jArr [.jStr "index"])]),
                ("fieldOptions", .jObj [("a", .jNum 1), ("b", .jNum 3)])]])
      [.jObj [("name", .jStr "a"),
              ("baseOptions", .jObj [("visibility", .jArr [.jStr "index"])]),
              ("fieldOptions", .jObj [("a", .jNum 1), ("b", .jNum 3)])]]))
      "a") "fieldOptions") "a" = .jUndefined ∧
    jget (jget (.jObj [("name", .jStr "a"),
              ("baseOptions", .jObj [("visibility", .jArr [.jStr "index"])]),
              ("fieldOptions", .jObj [("a", .jNum 1), ("b", .jNum 3)])])
      "fieldOptions") "a" = .jNum 1 := by
  refine ⟨by decide, by decide, by decide⟩

/-- C4 (amended): the built entry's `fieldOptions` object is a copy of the
delta's `fieldOptions` — it contains exactly the changed keys, key by key,
and is entirely independent of the working column's current `fieldOptions`
object (which is not force-included). -/
theorem C4_fieldOptions_passthrough_amended (delta col : JVal) (k : String) :
    jget (jget (changesObject delta col) "fieldOptions") k =
      jget (jget delta "fieldOptions") k :=
  changesObject_fieldOptions delta col k

/-- C6: for every column index appearing in the diff (with the index parsing
back to a position that holds a truthy working column), the built change-set
entry carries the full current `baseOptions.visibility` value of
`working[index]`, whether or not visibility occurs in that column's delta. -/
theorem C6_visibility_force_included (cols : List JVal) (k : String) (delta col : JVal)
    (i : Nat) (hk : parseIdx k = some i) (hcol : cols.get? i = some col)
    (ht : jTruthy col = true) :
    jget (jget (changeEntry cols (k, delta)).2 "baseOptions") "visibility" =
      jget (jget col "baseOptions") "visibility" := by
  rw [changeEntry_of_found cols k delta col i hk hcol ht]
  exact changesObject_visibility delta col

/-- C6 witness: the theorem applied at a concrete diff entry whose delta does
not mention visibility at all. -/
theorem C6_witness :
    jget (jget (changeEntry
      [.jObj [("name", .jStr "a"),
              ("baseOptions", .jObj [("visibility", .jArr [.jStr "index", .jStr "show"])])]]
      ("0", .jObj [("baseOptions", .jObj [("label", .jStr "L")])])).2
      "baseOptions") "visibility" =
      jget (jget (.jObj [("name", .jStr "a"),
        ("baseOptions", .jObj [("visibility", .jArr [.jStr "index", .jStr "show"])])])
        "baseOptions") "visibility" :=
  C6_visibility_force_included _ "0" _ _ 0 (by decide) (by decide) (by decide)

/-- C9 counterexample: on a baseline of two columns and a working sequence of
one, the Diff Engine does not fail: it returns the index-keyed delta mapping
`{1: undefined}` — refuting the claimed `AlignmentError`. -/
theorem C9_counterexample :
    diffTop [.jObj [("name", .jStr "a")], .jObj [("name", .jStr "b")]]
        [.jObj [("name", .jStr "a")]] =
      .jObj [("1", .jUndefined)] := by decide

/-- C9 (amended): whenever baseline and working differ in length — in either
direction — the diff raises nothing and returns an index-keyed delta object
in which every index present only in the baseline maps to `undefined` and
every index present only in the working sequence carries the full new column
value. -/
theorem C9_length_mismatch_returns_delta_amended (base work : List JVal)
    (h : base.length ≠ work.length) :
    ∃ fs, diffTop base work = .jObj fs ∧
      (∀ j, work.length ≤ j → j < base.length → (natKey j, .jUndefined) ∈ fs) ∧
      (∀ j v, base.length ≤ j → work.get? j = some v → (natKey j, v) ∈ fs) :=
  jdiff_arrays_length_mismatch base work h

/-- C9 witness: the amended theorem applied in both directions — a two-column
baseline against a one-column working sequence, and a one-column baseline
against a two-column working sequence. -/
theorem C9_witness :
    (∃ fs, diffTop [.jObj [("name", .jStr "a")], .jObj [("name", .jStr "b")]]
        [.jObj [("name", .jStr "a")]] = .jObj fs ∧
      (∀ j, 1 ≤ j → j < 2 → (natKey j, .jUndefined) ∈ fs) ∧
      (∀ j v, 2 ≤ j →
        ([JVal.jObj [("name", .jStr "a")]] : List JVal).get? j = some v →
        (natKey j, v) ∈ fs)) ∧
    (∃ fs, diffTop [.jObj [("name", .jStr "a")]]
        [.jObj [("name", .jStr "a")], .jObj [("name", .jStr "b")]] = .jObj fs ∧
      (∀ j, 2 ≤ j → j < 1 → (natKey j, .jUndefined) ∈ fs) ∧
      (∀ j v, 1 ≤ j →
        ([JVal.jObj [("name", .jStr "a")], .jObj [("name", .jStr "b")]] :
          List JVal).get? j = some v →
        (natKey j, v) ∈ fs)) :=
  ⟨C9_length_mismatch_returns_delta_amended
      [.jObj [("name", .jStr "a")], .jObj [("name", .jStr "b")]]
      [.jObj [("name", .jStr "a")]] (by decide),
   C9_length_mismatch_returns_delta_amended
      [.jObj [("name", .jStr "a")]]
      [.jObj [("name", .jStr "a")], .jObj [("name", .jStr "b")]] (by decide)⟩

/-- C5: when exactly one column (index `i`, with a non-droppable object
delta) differs between baseline and working, the built change-set has exactly
one key, the `name` of `working[i]` — the change-set is keyed by column name,
never by position. -/
theorem C5_single_change_single_name_key (base work : List JVal) (i : Nat)
    (d : List (String × JVal)) (wi : JVal) (nm : String)
    (hlen : base.length = work.length) (hi : i < work.length)
    (hoff : ∀ j, j < work.length → j ≠ i → base.get? j = work.get? j)
    (hwi : work.get? i = some wi)
    (hd : ∀ bi, base.get? i = some bi → jdiff bi wi = .jObj d)
    (hne : d ≠ [])
    (ht : jTruthy wi = true)
    (hname : jget wi "name" = .jStr nm) :
    (changes (diffTop base work) work).map Prod.fst = [nm] := by
  have hd2 : ∀ bi wi2, base.get? i = some bi → work.get? i = some wi2 →
      jdiff bi wi2 = .jObj d := by
    intro bi wi2 hbi hwi2
    rw [hwi] at hwi2
    injection hwi2 with h2
    subst h2
    exact hd bi hbi
  unfold diffTop
  rw [jdiff_arrays_single base work i d hlen hi hoff hd2 hne]
  unfold changes entriesOf
  simp only [spreadFields, List.map_cons, List.map_nil]
  rw [changeEntry_of_found work (natKey i) (.jObj d) wi i (parseIdx_natKey i) hwi ht]
  rw [hname]
  simp [fromEntries, setField, jKeyString]

/-- C5 witness: one column whose label changed; the change-set keys are
exactly the column's name. -/
theorem C5_witness :
    (changes (diffTop
      [.jObj [("name", .jStr "a"), ("baseOptions", .jObj [("label", .jStr "x")])]]
      [.jObj [("name", .jStr "a"), ("baseOptions", .jObj [("label", .jStr "y")])]])
      [.jObj [("name", .jStr "a"), ("baseOptions", .jObj [("label", .jStr "y")])]]).map
      Prod.fst = ["a"] :=
  C5_single_change_single_name_key
    [.jObj [("name", .jStr "a"), ("baseOptions", .jObj [("label", .jStr "x")])]]
    [.jObj [("name", .jStr "a"), ("baseOptions", .jObj [("label", .jStr "y")])]] 0
    [("baseOptions", .jObj [("label", .jStr "y")])]
    (.jObj [("name", .jStr "a"), ("baseOptions", .jObj [("label", .jStr "y")])]) "a"
    (by decide) (by decide)
    (by intro j hj hne2; simp at hj; omega)
    (by decide)
    (by
      intro bi hbi
      rw [List.get?_cons_zero] at hbi
      injection hbi with h2
      subst h2
      decide)
    (by decide) (by decide) (by decide)

/-- C7: invoking the mutation entry point with a column argument whose name
matches no column of the working sequence is a silent no-op: the working
sequence is returned unchanged, the editor state is unchanged, and no error
of any kind is raised (the function is total). -/
theorem C7_unknown_name_silent_noop (cols : List JVal) (arg : JVal) (path : String)
    (v : JVal) (h : ∀ c ∈ cols, jget c "name" ≠ jget arg "name") :
    setColumnOption cols arg path v = cols ∧
    (∀ s : EState, s.columns = cols → mutate s arg path v = s) := by
  have hfind : findIndexJS (fun c => jget c "name" = jget arg "name") cols = none :=
    findIndexJS_eq_none _ _ (fun x hx => by simpa using h x hx)
  have hcore : setColumnOptionCore cols arg path v = none := by
    unfold setColumnOptionCore
    rw [hfind]
  constructor
  · unfold setColumnOption
    rw [hcore]
  · intro s hs
    unfold mutate
    rw [hs, hcore]

/-- C7 witness: mutating a column named `"ghost"` in a sequence holding only
`"a"` changes nothing. -/
theorem C7_witness :
    setColumnOption [.jObj [("name", .jStr "a")]] (.jObj [("name", .jStr "ghost")])
        "baseOptions.required" (.jBool true) = [.jObj [("name", .jStr "a")]] ∧
    (∀ s : EState, s.columns = [.jObj [("name", .jStr "a")]] →
      mutate s (.jObj [("name", .jStr "ghost")]) "baseOptions.required" (.jBool true) = s) :=
  C7_unknown_name_silent_noop _ _ _ _ (by decide)

/-- C8 counterexample: setting the unresolvable path `"bogus"` on a column
does not fail — the value is silently applied as a new top-level key
`"bogus"`, and the working sequence is changed accordingly, refuting the
claimed `InvalidPathError`. -/
theorem C8_counterexample :
    jget ((setColumnOption
        [.jObj [("name", .jStr "a"), ("baseOptions", .jObj [])]]
        (.jObj [("name", .jStr "a"), ("baseOptions", .jObj [])])
        "bogus" (.jNum 5)).headD .jUndefined) "bogus" = .jNum 5 ∧
    setColumnOption
        [.jObj [("name", .jStr "a"), ("baseOptions", .jObj [])]]
        (.jObj [("name", .jStr "a"), ("baseOptions", .jObj [])])
        "bogus" (.jNum 5) ≠
      [.jObj [("name", .jStr "a"), ("baseOptions", .jObj [])]] := by
  refine ⟨by decide, by decide⟩

/-- C8 (amended): the single-option transform never fails on an unresolvable
path — it silently applies the value.  A two-segment path `a.b` with `a`
non-empty writes the value under namespace `a`, key `b` (creating `a` even
when it is not a known field); a two-segment path with an empty first segment
(`".b"`) falls to the else-branch — `if (namespace)` is falsy on `""` — and
writes the value under the already-reassigned name, the top-level key `b`;
any other path writes the value under the literal path string as a top-level
key.  In every case the replacement column is stored in the working
sequence. -/
theorem C8_invalid_path_silently_applied_amended (cols : List JVal) (col : JVal)
    (path : String) (v : JVal) (i : Nat)
    (hfind : findIndexJS (fun c => jget c "name" = jget col "name") cols = some i) :
    (setColumnOption cols col path v).get? i = some (newColumnOf col path v) ∧
    (∀ a b, jsSplitDot path = [a, b] → a.isEmpty = false →
      jget (jget (newColumnOf col path v) a) b = v) ∧
    (∀ b, jsSplitDot path = ["", b] → jget (newColumnOf col path v) b = v) ∧
    ((jsSplitDot path).length ≠ 2 → jget (newColumnOf col path v) path = v) := by
  refine ⟨?_, ?_, ?_, ?_⟩
  · have hlt := findIndexJS_lt_length _ cols i hfind
    unfold setColumnOption setColumnOptionCore
    rw [hfind]
    simp only []
    rw [List.get?_eq_getElem?]
    exact List.getElem?_set_eq_of_lt _ hlt
  · intro a b hsplit hne
    rw [newColumnOf_two_segments col path a b v hsplit hne, jget_jspreadSet_self,
      jget_jspreadSet_self]
  · intro b hsplit
    rw [newColumnOf_empty_namespace col path b v hsplit, jget_jspreadSet_self]
  · intro hlen2
    rw [newColumnOf_other col path v hlen2, jget_jspreadSet_self]

/-- C8 witness: the amended theorem applied to the unknown namespace path
`"foo.bar"` and to the empty-namespace path `".bar"` on a one-column
sequence. -/
theorem C8_witness :
    (setColumnOption [.jObj [("name", .jStr "a"), ("baseOptions", .jObj [])]]
        (.jObj [("name", .jStr "a"), ("baseOptions", .jObj [])])
        "foo.bar" (.jNum 5)).get? 0 =
      some (newColumnOf (.jObj [("name", .jStr "a"), ("baseOptions", .jObj [])])
        "foo.bar" (.jNum 5)) ∧
    jget (jget (newColumnOf (.jObj [("name", .jStr "a"), ("baseOptions", .jObj [])])
        "foo.bar" (.jNum 5)) "foo") "bar" = .jNum 5 ∧
    jget (newColumnOf (.jObj [("name", .jStr "a"), ("baseOptions", .jObj [])])
        ".bar" (.jNum 5)) "bar" = .jNum 5 :=
  ⟨(C8_invalid_path_silently_applied_amended
      [.jObj [("name", .jStr "a"), ("baseOptions", .jObj [])]]
      (.jObj [("name", .jStr "a"), ("baseOptions", .jObj [])])
      "foo.bar" (.jNum 5) 0 (by decide)).1,
   (C8_invalid_path_silently_applied_amended
      [.jObj [("name", .jStr "a"), ("baseOptions", .jObj [])]]
      (.jObj [("name", .jStr "a"), ("baseOptions", .jObj [])])
      "foo.bar" (.jNum 5) 0 (by decide)).2.1
     "foo" "bar" (by decide) (by decide),
   (C8_invalid_path_silently_applied_amended
      [.jObj [("name", .jStr "a"), ("baseOptions", .jObj [])]]
      (.jObj [("name", .jStr "a"), ("baseOptions", .jObj [])])
      ".bar" (.jNum 5) 0 (by decide)).2.2.1
     "bar" (by decide)⟩

/-- C10: the mutation entry point builds the replacement column from its
`column` argument alone — the entry stored in the working sequence at the
matched index contributes nothing (replacing it by any other same-named value
leaves the result unchanged), and the stored entry is overwritten by the
argument with the one option set, so differences a stale argument does not
carry are discarded. -/
theorem C10_replacement_built_from_argument (pre post : List JVal) (stored d arg : JVal)
    (nm : String) (v : JVal)
    (hpre : ∀ y ∈ pre, jget y "name" ≠ jget arg "name")
    (hstored : jget stored "name" = jget arg "name")
    (hd : jget d "name" = jget arg "name") :
    setColumnOption (pre ++ stored :: post) arg nm v =
      setColumnOption (pre ++ d :: post) arg nm v ∧
    (setColumnOption (pre ++ stored :: post) arg nm v).get? pre.length =
      some (newColumnOf arg nm v) := by
  rw [setColumnOption_append pre post stored arg nm v hpre hstored,
      setColumnOption_append pre post d arg nm v hpre hd]
  exact ⟨rfl, get?_append_cons pre _ post⟩

/-- C10 witness: a stale argument (label `"x"`) overwrites a working entry
whose label had moved on to `"fresh"`; the result is the same as if the
stored entry had any other value of the same name. -/
theorem C10_witness :
    setColumnOption
        [.jObj [("name", .jStr "a"), ("baseOptions", .jObj [("label", .jStr "fresh")])]]
        (.jObj [("name", .jStr "a"), ("baseOptions", .jObj [("label", .jStr "x")])])
        "baseOptions.required" (.jBool true) =
      setColumnOption
        [.jObj [("name", .jStr "a"), ("baseOptions", .jObj [("label", .jStr "other")])]]
        (.jObj [("name", .jStr "a"), ("baseOptions", .jObj [("label", .jStr "x")])])
        "baseOptions.required" (.jBool true) ∧
    (setColumnOption
        [.jObj [("name", .jStr "a"), ("baseOptions", .jObj [("label", .jStr "fresh")])]]
        (.jObj [("name", .jStr "a"), ("baseOptions", .jObj [("label", .jStr "x")])])
        "baseOptions.required" (.jBool true)).get? ([] : List JVal).length =
      some (newColumnOf
        (.jObj [("name", .jStr "a"), ("baseOptions", .jObj [("label", .jStr "x")])])
        "baseOptions.required" (.jBool true)) :=
  C10_replacement_built_from_argument [] []
    (.jObj [("name", .jStr "a"), ("baseOptions", .jObj [("label", .jStr "fresh")])])
    (.jObj [("name", .jStr "a"), ("baseOptions", .jObj [("label", .jStr "other")])])
    (.jObj [("name", .jStr "a"), ("baseOptions", .jObj [("label", .jStr "x")])])
    "baseOptions.required" (.jBool true)
    (by intro y hy; exact absurd hy (List.not_mem_nil y))
    (by decide) (by decide)

theorem mutate_settled_append (pre post : List JVal) (c : JVal) (path : String) (v : JVal)
    (hpre : ∀ y ∈ pre, jget y "name" ≠ jget c "name") :
    mutate (settledState (pre ++ c :: post) c) c path v =
      runEffects 3 ⟨pre ++ newColumnOf c path v :: post, newColumnOf c path v,
        reqOf c, nulOf c⟩ := by
  unfold mutate settledState
  rw [setColumnOptionCore_append pre post c c path v hpre rfl]

theorem bofield_newColumnOf_self (c : JVal) (path bk : String) (v : JVal)
    (hsplit : jsSplitDot path = ["baseOptions", bk]) :
    jget (jget (newColumnOf c path v) "baseOptions") bk = v := by
  rw [newColumnOf_two_segments c path "baseOptions" bk v hsplit (by decide)]
  exact field_of_bset_self c bk v

theorem bofield_newColumnOf_other (c : JVal) (path bk f : String) (v : JVal)
    (hsplit : jsSplitDot path = ["baseOptions", bk]) (h : f ≠ bk) :
    jget (jget (newColumnOf c path v) "baseOptions") f = jget (jget c "baseOptions") f := by
  rw [newColumnOf_two_segments c path "baseOptions" bk v hsplit (by decide)]
  exact field_of_bset_other c bk f v h

theorem top_newColumnOf_other (c : JVal) (path bk f : String) (v : JVal)
    (hsplit : jsSplitDot path = ["baseOptions", bk]) (h : f ≠ "baseOptions") :
    jget (newColumnOf c path v) f = jget c f := by
  rw [newColumnOf_two_segments c path "baseOptions" bk v hsplit (by decide)]
  exact top_of_bset c bk f v h

/-- C1 (amended): provided the column is not already in the state forbidden
by invariant I1 (`required` already `true` while `nullable` is not `false` —
a state in which the required-effect's dependency does not change, so the
constraint effect never re-runs), setting `baseOptions.required` to `true`
through the mutation entry point leaves the working column named `c.name`
with `baseOptions.nullable = false` once the effects quiesce. -/
theorem C1_required_forces_nullable_amended (pre post : List JVal) (c : JVal)
    (hpre : ∀ y ∈ pre, jget y "name" ≠ jget c "name")
    (hok : reqOf c ≠ .jBool true ∨ nulOf c = .jBool false) :
    nulOf ((mutate (settledState (pre ++ c :: post) c) c
      "baseOptions.required" (.jBool true)).column) = .jBool false ∧
    (mutate (settledState (pre ++ c :: post) c) c
      "baseOptions.required" (.jBool true)).columns =
      pre ++ ((mutate (settledState (pre ++ c :: post) c) c
        "baseOptions.required" (.jBool true)).column) :: post := by
  rw [mutate_settled_append pre post c _ _ hpre]
  have hsp1 : jsSplitDot "baseOptions.required" = ["baseOptions", "required"] := by decide
  have hreq : reqOf (newColumnOf c "baseOptions.required" (.jBool true)) = .jBool true :=
    bofield_newColumnOf_self c _ "required" (.jBool true) hsp1
  have hnul : nulOf (newColumnOf c "baseOptions.required" (.jBool true)) = nulOf c :=
    bofield_newColumnOf_other c _ "required" "nullable" (.jBool true) hsp1 (by decide)
  have hname : jget (newColumnOf c "baseOptions.required" (.jBool true)) "name" =
      jget c "name" :=
    top_newColumnOf_other c _ "required" "name" (.jBool true) hsp1 (by decide)
  by_cases hr : reqOf c = .jBool true
  · have hn : nulOf c = .jBool false := by
      rcases hok with h | h
      · exact absurd hr h
      · exact h
    have hstep1 : commitStep ⟨pre ++ newColumnOf c "baseOptions.required" (.jBool true)
          :: post, newColumnOf c "baseOptions.required" (.jBool true), reqOf c, nulOf c⟩ =
        ⟨pre ++ newColumnOf c "baseOptions.required" (.jBool true) :: post,
          newColumnOf c "baseOptions.required" (.jBool true),
          reqOf (newColumnOf c "baseOptions.required" (.jBool true)),
          nulOf (newColumnOf c "baseOptions.required" (.jBool true))⟩ := by
      rw [commitStep_mk]
      have f1 : decide (reqOf (newColumnOf c "baseOptions.required" (.jBool true)) ≠
          reqOf c) = false := by simp [hreq, hr]
      have f2 : decide (nulOf (newColumnOf c "baseOptions.required" (.jBool true)) ≠
          nulOf c) = false := by simp [hnul]
      rw [f1, f2, effectUpdates_false_false]
    have hstep2 := commitStep_settled
      (pre ++ newColumnOf c "baseOptions.required" (.jBool true) :: post)
      (newColumnOf c "baseOptions.required" (.jBool true))
    have hfull : runEffects 3 ⟨pre ++ newColumnOf c "baseOptions.required" (.jBool true)
          :: post, newColumnOf c "baseOptions.required" (.jBool true), reqOf c, nulOf c⟩ =
        ⟨pre ++ newColumnOf c "baseOptions.required" (.jBool true) :: post,
          newColumnOf c "baseOptions.required" (.jBool true),
          reqOf (newColumnOf c "baseOptions.required" (.jBool true)),
          nulOf (newColumnOf c "baseOptions.required" (.jBool true))⟩ := by
      simp only [runEffects]
      rw [hstep1, hstep2, hstep2]
    rw [hfull]
    exact ⟨by rw [hnul, hn], rfl⟩
  · have hsp2 : jsSplitDot "baseOptions.nullable" = ["baseOptions", "nullable"] := by decide
    have hreq2 : reqOf (newColumnOf (newColumnOf c "baseOptions.required" (.jBool true))
          "baseOptions.nullable" (.jBool false)) =
        reqOf (newColumnOf c "baseOptions.required" (.jBool true)) :=
      bofield_newColumnOf_other _ _ "nullable" "required" (.jBool false) hsp2 (by decide)
    have hnul2 : nulOf (newColumnOf (newColumnOf c "baseOptions.required" (.jBool true))
          "baseOptions.nullable" (.jBool false)) = .jBool false :=
      bofield_newColumnOf_self _ _ "nullable" (.jBool false) hsp2
    have hstep1 : commitStep ⟨pre ++ newColumnOf c "baseOptions.required" (.jBool true)
          :: post, newColumnOf c "baseOptions.required" (.jBool true), reqOf c, nulOf c⟩ =
        ⟨pre ++ newColumnOf (newColumnOf c "baseOptions.required" (.jBool true))
            "baseOptions.nullable" (.jBool false) :: post,
          newColumnOf (newColumnOf c "baseOptions.required" (.jBool true))
            "baseOptions.nullable" (.jBool false),
          reqOf (newColumnOf c "baseOptions.required" (.jBool true)),
          nulOf (newColumnOf c "baseOptions.required" (.jBool true))⟩ := by
      rw [commitStep_mk]
      have f1 : decide (reqOf (newColumnOf c "baseOptions.required" (.jBool true)) ≠
          reqOf c) = true := by
        rw [hreq]
        exact decide_eq_true (fun hcontra => hr hcontra.symm)
      have f2 : decide (nulOf (newColumnOf c "baseOptions.required" (.jBool true)) ≠
          nulOf c) = false := by simp [hnul]
      rw [f1, f2]
      rw [effectUpdates_fire1 _ _ _ (by rw [hreq]; rfl) (by simp)]
      rw [setColumnOptionCore_append pre post
        (newColumnOf c "baseOptions.required" (.jBool true))
        (newColumnOf c "baseOptions.required" (.jBool true)) _ _
        (fun y hy => by rw [hname]; exact hpre y hy) rfl]
    have hstep2 : commitStep ⟨pre ++ newColumnOf (newColumnOf c "baseOptions.required"
            (.jBool true)) "baseOptions.nullable" (.jBool false) :: post,
          newColumnOf (newColumnOf c "baseOptions.required" (.jBool true))
            "baseOptions.nullable" (.jBool false),
          reqOf (newColumnOf c "baseOptions.required" (.jBool true)),
          nulOf (newColumnOf c "baseOptions.required" (.jBool true))⟩ =
        ⟨pre ++ newColumnOf (newColumnOf c "baseOptions.required" (.jBool true))
            "baseOptions.nullable" (.jBool false) :: post,
          newColumnOf (newColumnOf c "baseOptions.required" (.jBool true))
            "baseOptions.nullable" (.jBool false),
          reqOf (newColumnOf (newColumnOf c "baseOptions.required" (.jBool true))
            "baseOptions.nullable" (.jBool false)),
          nulOf (newColumnOf (newColumnOf c "baseOptions.required" (.jBool true))
            "baseOptions.nullable" (.jBool false))⟩ := by
      rw [commitStep_mk]
      have f1 : decide (reqOf (newColumnOf (newColumnOf c "baseOptions.required"
          (.jBool true)) "baseOptions.nullable" (.jBool false)) ≠
          reqOf (newColumnOf c "baseOptions.required" (.jBool true))) = false := by
        simp [hreq2]
      rw [f1]
      rw [effectUpdates_any_nulFalse _ _ _ _ (by simp) (by rw [hnul2]; rfl)]
    have hstep3 := commitStep_settled
      (pre ++ newColumnOf (newColumnOf c "baseOptions.required" (.jBool true))
        "baseOptions.nullable" (.jBool false) :: post)
      (newColumnOf (newColumnOf c "baseOptions.required" (.jBool true))
        "baseOptions.nullable" (.jBool false))
    have hfull : runEffects 3 ⟨pre ++ newColumnOf c "baseOptions.required" (.jBool true)
          :: post, newColumnOf c "baseOptions.required" (.jBool true), reqOf c, nulOf c⟩ =
        ⟨pre ++ newColumnOf (newColumnOf c "baseOptions.required" (.jBool true))
            "baseOptions.nullable" (.jBool false) :: post,
          newColumnOf (newColumnOf c "baseOptions.required" (.jBool true))
            "baseOptions.nullable" (.jBool false),
          reqOf (newColumnOf (newColumnOf c "baseOptions.required" (.jBool true))
            "baseOptions.nullable" (.jBool false)),
          nulOf (newColumnOf (newColumnOf c "baseOptions.required" (.jBool true))
            "baseOptions.nullable" (.jBool false))⟩ := by
      simp only [runEffects]
      rw [hstep1, hstep2, hstep3]
    rw [hfull]
    exact ⟨hnul2, rfl⟩

/-- C1 witness: a required-false, nullable-true column; setting
`baseOptions.required` to `true` forces `nullable` to `false`. -/
theorem C1_witness :
    nulOf ((mutate (settledState
      [.jObj [("name", .jStr "a"),
              ("baseOptions", .jObj [("required", .jBool false), ("nullable", .jBool true),
                                     ("nullValues", .jArr [.jStr ""])])]]
      (.jObj [("name", .jStr "a"),
              ("baseOptions", .jObj [("required", .jBool false), ("nullable", .jBool true),
                                     ("nullValues", .jArr [.jStr ""])])]))
      (.jObj [("name", .jStr "a"),
              ("baseOptions", .jObj [("required", .jBool false), ("nullable", .jBool true),
                                     ("nullValues", .jArr [.jStr ""])])])
      "baseOptions.required" (.jBool true)).column) = .jBool false ∧
    (mutate (settledState
      [.jObj [("name", .jStr "a"),
              ("baseOptions", .jObj [("required", .jBool false), ("nullable", .jBool true),
                                     ("nullValues", .jArr [.jStr ""])])]]
      (.jObj [("name", .jStr "a"),
              ("baseOptions", .jObj [("required", .jBool false), ("nullable", .jBool true),
                                     ("nullValues", .jArr [.jStr ""])])]))
      (.jObj [("name", .jStr "a"),
              ("baseOptions", .jObj [("required", .jBool false), ("nullable", .jBool true),
                                     ("nullValues", .jArr [.jStr ""])])])
      "baseOptions.required" (.jBool true)).columns =
      [] ++ ((mutate (settledState
      [.jObj [("name", .jStr "a"),
              ("baseOptions", .jObj [("required", .jBool false), ("nullable", .jBool true),
                                     ("nullValues", .jArr [.jStr ""])])]]
      (.jObj [("name", .jStr "a"),
              ("baseOptions", .jObj [("required", .jBool false), ("nullable", .jBool true),
                                     ("nullValues", .jArr [.jStr ""])])]))
      (.jObj [("name", .jStr "a"),
              ("baseOptions", .jObj [("required", .jBool false), ("nullable", .jBool true),
                                     ("nullValues", .jArr [.jStr ""])])])
      "baseOptions.required" (.jBool true)).column) :: [] :=
  C1_required_forces_nullable_amended [] []
    (.jObj [("name", .jStr "a"),
            ("baseOptions", .jObj [("required", .jBool false), ("nullable", .jBool true),
                                   ("nullValues", .jArr [.jStr ""])])])
    (by intro y hy; exact absurd hy (List.not_mem_nil y))
    (Or.inl (by decide))

/-- C1 counterexample: a column already violating I1 (`required = true` and
`nullable = true`, a state the nullable-effect's lost update can produce);
invoking the mutation entry point with `baseOptions.required := true` leaves
the dependency of the required-effect unchanged, so the effect does not
re-run and the resulting column keeps `nullable = true`, refuting the claim
as stated for every column. -/
theorem C1_counterexample :
    nulOf ((mutate (settledState
      [.jObj [("name", .jStr "a"),
              ("baseOptions", .jObj [("required", .jBool true), ("nullable", .jBool true),
                                     ("nullValues", .jArr [.jStr ""])])]]
      (.jObj [("name", .jStr "a"),
              ("baseOptions", .jObj [("required", .jBool true), ("nullable", .jBool true),
                                     ("nullValues", .jArr [.jStr ""])])]))
      (.jObj [("name", .jStr "a"),
              ("baseOptions", .jObj [("required", .jBool true), ("nullable", .jBool true),
                                     ("nullValues", .jArr [.jStr ""])])])
      "baseOptions.required" (.jBool true)).column) = .jBool true ∧
    nulOf ((mutate (settledState
      [.jObj [("name", .jStr "a"),
              ("baseOptions", .jObj [("required", .jBool true), ("nullable", .jBool true),
                                     ("nullValues", .jArr [.jStr ""])])]]
      (.jObj [("name", .jStr "a"),
              ("baseOptions", .jObj [("required", .jBool true), ("nullable", .jBool true),
                                     ("nullValues", .jArr [.jStr ""])])]))
      (.jObj [("name", .jStr "a"),
              ("baseOptions", .jObj [("required", .jBool true), ("nullable", .jBool true),
                                     ("nullValues", .jArr [.jStr ""])])])
      "baseOptions.required" (.jBool true)).column) ≠ .jBool false := by
  refine ⟨by decide, by decide⟩

/-- C2: evaluation of the code at the failing input
`{name:"a", baseOptions:{required:true, nullable:false, nullValues:[]}}`.
Setting `baseOptions.nullable` to `true` runs the nullable-effect, whose two
`setColumnOption` calls close over the same stale `column`; the second call
(initialising `nullValues` to `[""]`) overwrites the first, so the
`required := false` write is lost: the resulting column has
`required = true`, `nullable = true` (contradicting the source's own comment
that they can never both be true) and `nullValues = [""]` — the claim's
`required == false` fails. -/
theorem C2_lost_required_update :
    reqOf ((mutate (settledState
      [.jObj [("name", .jStr "a"),
              ("baseOptions", .jObj [("required", .jBool true), ("nullable", .jBool false),
                                     ("nullValues", .jArr [])])]]
      (.jObj [("name", .jStr "a"),
              ("baseOptions", .jObj [("required", .jBool true), ("nullable", .jBool false),
                                     ("nullValues", .jArr [])])]))
      (.jObj [("name", .jStr "a"),
              ("baseOptions", .jObj [("required", .jBool true), ("nullable", .jBool false),
                                     ("nullValues", .jArr [])])])
      "baseOptions.nullable" (.jBool true)).column) = .jBool true ∧
    nulOf ((mutate (settledState
      [.jObj [("name", .jStr "a"),
              ("baseOptions", .jObj [("required", .jBool true), ("nullable", .jBool false),
                                     ("nullValues", .jArr [])])]]
      (.jObj [("name", .jStr "a"),
              ("baseOptions", .jObj [("required", .jBool true), ("nullable", .jBool false),
                                     ("nullValues", .jArr [])])]))
      (.jObj [("name", .jStr "a"),
              ("baseOptions", .jObj [("required", .jBool true), ("nullable", .jBool false),
                                     ("nullValues", .jArr [])])])
      "baseOptions.nullable" (.jBool true)).column) = .jBool true ∧
    nvOf ((mutate (settledState
      [.jObj [("name", .jStr "a"),
              ("baseOptions", .jObj [("required", .jBool true), ("nullable", .jBool false),
                                     ("nullValues", .jArr [])])]]
      (.jObj [("name", .jStr "a"),
              ("baseOptions", .jObj [("required", .jBool true), ("nullable", .jBool false),
                                     ("nullValues", .jArr [])])]))
      (.jObj [("name", .jStr "a"),
              ("baseOptions", .jObj [("required", .jBool true), ("nullable", .jBool false),
                                     ("nullValues", .jArr [])])])
      "baseOptions.nullable" (.jBool true)).column) = .jArr [.jStr ""] ∧
    reqOf ((mutate (settledState
      [.jObj [("name", .jStr "a"),
              ("baseOptions", .jObj [("required", .jBool true), ("nullable", .jBool false),
                                     ("nullValues", .jArr [])])]]
      (.jObj [("name", .jStr "a"),
              ("baseOptions", .jObj [("required", .jBool true), ("nullable", .jBool false),
                                     ("nullValues", .jArr [])])]))
      (.jObj [("name", .jStr "a"),
              ("baseOptions", .jObj [("required", .jBool true), ("nullable", .jBool false),
                                     ("nullValues", .jArr [])])])
      "baseOptions.nullable" (.jBool true)).column) ≠ .jBool false := by
  refine ⟨by decide, by decide, by decide, by decide⟩
